import Mathlib

/-!
Verification of the transaction-building and canonical-encoding module
(`src.ts/transaction.ts` of the near-api-js repository).

The file shallowly embeds:

* the schema-driven canonical binary codec (Borsh-style).  The generic
  serializer itself lives in `src.ts/utils/serialize.ts`, which is not part of
  the sources under verification; it is modelled from the specification
  (little-endian fixed-width integers, u32-length-prefixed strings and
  arrays, presence-byte options, single-discriminant-byte tagged unions).
  The concrete `SCHEMA` layout descriptors are transcribed from the source.
* the variant constructors (`fullAccessKey`, `functionCallAccessKey`,
  `createAccount`, …, `deleteAccount`) with their runtime argument-count
  checks, transcribed from the source.
* `createTransaction` and `signTransaction`, transcribed from the source.
  The external `Signer` collaborator and the digest function are parameters;
  `signTransaction` additionally records the ordered protocol events of a
  run so that temporal properties can be stated.

JavaScript machine integers are modelled as `Nat` (the encoder checks the
`n < 256 ^ width` range explicitly where the original `BN.toArray` would
throw); byte sequences are `List Nat`; JavaScript strings appear as their
UTF-8 byte sequences.  A JavaScript `undefined` leaking into a field (which
is possible through `functionCallAccessKey`'s unchecked parameters and
through `signTransaction`'s optional `accountId`) is modelled by the value
`BValue.undefined`, which no schema accepts.
-/

namespace NearTx

/-- Errors of the schema-driven codec: `schemaError` covers unknown/ill-shaped
data (fixed-length mismatch, truncated input, out-of-range discriminant,
integer overflow of the declared width); `variantError` is a tagged union with
a number of populated slots different from one. -/
inductive BorshError where
  | schemaError
  | variantError
deriving DecidableEq, Repr

/-- Error raised by a variant constructor invoked with the wrong number of
arguments (the source throws `Error("Wrong number of arguments …")`; the spec
names this `ArityError`). -/
inductive BuildError where
  | arityError
deriving DecidableEq, Repr

/-- `w`-byte little-endian representation of `n` (base-256 digits). -/
def toLE : Nat → Nat → List Nat
  | 0, _ => []
  | w + 1, n => n % 256 :: toLE w (n / 256)

/-- Read a little-endian byte list back into a number. -/
def fromLE : List Nat → Nat
  | [] => 0
  | b :: bs => b + 256 * fromLE bs

/-- Take exactly `w` bytes from the input, failing on truncated input. -/
def readBytes : Nat → List Nat → Except BorshError (List Nat × List Nat)
  | 0, bs => .ok ([], bs)
  | _ + 1, [] => .error .schemaError
  | w + 1, b :: bs =>
    match readBytes w bs with
    | .error e => .error e
    | .ok (chunk, rest) => .ok (b :: chunk, rest)

/-- Layout descriptors of the Schema Registry: the kinds of types the
declarations in `SCHEMA` use ( `'u8'`/`'u64'`/`'u128'` become `uint 1/8/16`,
`'string'` is a string, `[n]` a fixed byte array, `[T]` a variable array,
`{kind: 'option'}` an option, `{kind: 'struct'}` an ordered field list and
`{kind: 'enum'}` an ordered variant list). -/
inductive BorshType where
  | uint (w : Nat)
  | string
  | fixedBytes (n : Nat)
  | vec (t : BorshType)
  | option (t : BorshType)
  | struct (fields : List BorshType)
  | enum (variants : List BorshType)
deriving Repr

/-- Runtime values the codec operates on.  `record` holds the field values in
the schema's declared order; `union` holds one optional payload slot per
declared variant (the source's `Enum` objects have one property per variant
name); `undefined` is a JavaScript `undefined` sitting where a value was
expected. -/
inductive BValue where
  | int (n : Nat)
  | str (bs : List Nat)
  | bytes (bs : List Nat)
  | arr (vs : List BValue)
  | opt (o : Option BValue)
  | record (fields : List BValue)
  | union (slots : List (Option BValue))
  | undefined
deriving Repr

/-- The payload type of variant `i` in a declared variant list. -/
def payloadType : List BorshType → Nat → Option BorshType
  | t :: _, 0 => some t
  | _ :: ts, i + 1 => payloadType ts i
  | [], _ => none

/-- If exactly one slot of a union is populated, return its zero-based index
and payload; otherwise `none`. -/
def onlyJust : List (Option BValue) → Option (Nat × BValue)
  | [] => none
  | some v :: slots => if slots.all Option.isNone then some (0, v) else none
  | none :: slots => (onlyJust slots).map (fun p => (p.1 + 1, p.2))

/-- Number of populated slots of a union value. -/
def countSome : List (Option BValue) → Nat
  | [] => 0
  | some _ :: slots => countSome slots + 1
  | none :: slots => countSome slots

/-- The slot list of a freshly decoded union: `len` slots with exactly the
`i`-th one populated. -/
def mkSlots (len i : Nat) (v : BValue) : List (Option BValue) :=
  List.replicate i none ++ some v :: List.replicate (len - i - 1) none

/-- Sequence an element encoder over an array value, concatenating the
encodings. -/
def encSeq (enc : BValue → Except BorshError (List Nat)) :
    List BValue → Except BorshError (List Nat)
  | [] => .ok []
  | v :: vs =>
    match enc v with
    | .error e => .error e
    | .ok b =>
      match encSeq enc vs with
      | .error e => .error e
      | .ok r => .ok (b ++ r)

/-- Encode the fields of a record in declared order; a value list whose shape
does not match the declared field list is a schema violation. -/
def encFields (enc : BorshType → BValue → Except BorshError (List Nat)) :
    List BorshType → List BValue → Except BorshError (List Nat)
  | [], [] => .ok []
  | t :: ts, v :: vs =>
    match enc t v with
    | .error e => .error e
    | .ok b =>
      match encFields enc ts vs with
      | .error e => .error e
      | .ok r => .ok (b ++ r)
  | _, _ => .error .schemaError

/-- Decode `count` consecutive elements. -/
def decSeq (dec : List Nat → Except BorshError (BValue × List Nat)) :
    Nat → List Nat → Except BorshError (List BValue × List Nat)
  | 0, bs => .ok ([], bs)
  | n + 1, bs =>
    match dec bs with
    | .error e => .error e
    | .ok (v, rest) =>
      match decSeq dec n rest with
      | .error e => .error e
      | .ok (vs, rest2) => .ok (v :: vs, rest2)

/-- Decode the fields of a record in declared order. -/
def decFields (dec : BorshType → List Nat → Except BorshError (BValue × List Nat)) :
    List BorshType → List Nat → Except BorshError (List BValue × List Nat)
  | [], bs => .ok ([], bs)
  | t :: ts, bs =>
    match dec t bs with
    | .error e => .error e
    | .ok (v, rest) =>
      match decFields dec ts rest with
      | .error e => .error e
      | .ok (vs, rest2) => .ok (v :: vs, rest2)

/-- Check the fields of a record value against the declared field list. -/
def wfFieldsWith (w : BorshType → BValue → Bool) :
    List BorshType → List BValue → Bool
  | [], [] => true
  | t :: ts, v :: vs => w t v && wfFieldsWith w ts vs
  | _, _ => false

/-- Check the slots of a union value against the declared variant list
(each populated slot must hold a well-formed payload of its variant's
type; the slot list must have one slot per declared variant). -/
def wfSlotsWith (w : BorshType → BValue → Bool) :
    List BorshType → List (Option BValue) → Bool
  | [], [] => true
  | _ :: ts, none :: slots => wfSlotsWith w ts slots
  | t :: ts, some v :: slots => w t v && wfSlotsWith w ts slots
  | _, _ => false

/-- Modelled from the spec: the generic schema-driven encoder of
`src.ts/utils/serialize.ts` (`serialize`), which is not among the sources
under verification.  Little-endian fixed-width unsigned integers (overflow of
the declared width is a schema violation, as `BN.toArray` would throw); a
string is its u32 byte-length followed by its UTF-8 bytes; a fixed byte array
must have exactly the declared length (`SchemaError` otherwise); a variable
array is a u32 element count followed by the element encodings in order; an
option is a presence byte (0 absent / 1 present) followed by the payload
encoding; a record is the concatenation of its field encodings in declared
order; a tagged union must have exactly one populated slot (`VariantError`
otherwise) and is the zero-based variant index as one byte followed by the
payload encoding.  The `fuel` argument only pays for nesting depth of the
declared type and is in no way data-dependent; every theorem below is uniform
in it. -/
def encodeF : Nat → BorshType → BValue → Except BorshError (List Nat)
  | 0, _, _ => .error .schemaError
  | _ + 1, .uint w, .int n =>
    if n < 256 ^ w then .ok (toLE w n) else .error .schemaError
  | _ + 1, .string, .str s => .ok (toLE 4 s.length ++ s)
  | _ + 1, .fixedBytes n, .bytes bs =>
    if bs.length = n then .ok bs else .error .schemaError
  | f + 1, .vec t, .arr vs =>
    match encSeq (encodeF f t) vs with
    | .error e => .error e
    | .ok body => .ok (toLE 4 vs.length ++ body)
  | _ + 1, .option _, .opt none => .ok [0]
  | f + 1, .option t, .opt (some v) =>
    match encodeF f t v with
    | .error e => .error e
    | .ok b => .ok (1 :: b)
  | f + 1, .struct ts, .record vs => encFields (encodeF f) ts vs
  | f + 1, .enum ts, .union slots =>
    match onlyJust slots with
    | none => .error .variantError
    | some (i, v) =>
      match payloadType ts i with
      | none => .error .schemaError
      | some t =>
        match encodeF f t v with
        | .error e => .error e
        | .ok b => .ok (i :: b)
  | _ + 1, _, _ => .error .schemaError

/-- Modelled from the spec: the generic schema-driven decoder of
`src.ts/utils/serialize.ts` (`deserialize`), the structural inverse of
`encodeF`: it validates every length and discriminant and never reads past
the supplied bytes (truncated input is a `SchemaError`; a union discriminant
greater than or equal to the declared variant count is a `SchemaError`). -/
def decodeF : Nat → BorshType → List Nat → Except BorshError (BValue × List Nat)
  | 0, _, _ => .error .schemaError
  | _ + 1, .uint w, bs =>
    match readBytes w bs with
    | .error e => .error e
    | .ok (chunk, rest) => .ok (.int (fromLE chunk), rest)
  | _ + 1, .string, bs =>
    match readBytes 4 bs with
    | .error e => .error e
    | .ok (lenB, rest) =>
      match readBytes (fromLE lenB) rest with
      | .error e => .error e
      | .ok (s, rest2) => .ok (.str s, rest2)
  | _ + 1, .fixedBytes n, bs =>
    match readBytes n bs with
    | .error e => .error e
    | .ok (chunk, rest) => .ok (.bytes chunk, rest)
  | f + 1, .vec t, bs =>
    match readBytes 4 bs with
    | .error e => .error e
    | .ok (lenB, rest) =>
      match decSeq (decodeF f t) (fromLE lenB) rest with
      | .error e => .error e
      | .ok (vs, rest2) => .ok (.arr vs, rest2)
  | f + 1, .option t, bs =>
    match bs with
    | 0 :: rest => .ok (.opt none, rest)
    | 1 :: rest =>
      match decodeF f t rest with
      | .error e => .error e
      | .ok (v, rest2) => .ok (.opt (some v), rest2)
    | _ => .error .schemaError
  | f + 1, .struct ts, bs =>
    match decFields (decodeF f) ts bs with
    | .error e => .error e
    | .ok (vs, rest) => .ok (.record vs, rest)
  | f + 1, .enum ts, bs =>
    match bs with
    | [] => .error .schemaError
    | i :: rest =>
      match payloadType ts i with
      | none => .error .schemaError
      | some t =>
        match decodeF f t rest with
        | .error e => .error e
        | .ok (v, rest2) => .ok (.union (mkSlots ts.length i v), rest2)

/-- Well-formedness of a value at a declared type: integers fit the declared
width, byte sequences are genuine bytes, u32-prefixed lengths fit 32 bits,
fixed byte arrays have the declared length, records and unions have the
declared shape, and exactly one union slot is populated. -/
def wfF : Nat → BorshType → BValue → Bool
  | 0, _, _ => false
  | _ + 1, .uint w, .int n => decide (n < 256 ^ w)
  | _ + 1, .string, .str s =>
    decide (s.length < 2 ^ 32) && s.all (fun b => decide (b < 256))
  | _ + 1, .fixedBytes n, .bytes bs =>
    decide (bs.length = n) && bs.all (fun b => decide (b < 256))
  | f + 1, .vec t, .arr vs =>
    decide (vs.length < 2 ^ 32) && vs.all (fun v => wfF f t v)
  | _ + 1, .option _, .opt none => true
  | f + 1, .option t, .opt (some v) => wfF f t v
  | f + 1, .struct ts, .record vs => wfFieldsWith (wfF f) ts vs
  | f + 1, .enum ts, .union slots =>
    wfSlotsWith (wfF f) ts slots && decide (countSome slots = 1)
  | _ + 1, _, _ => false

/-- Nesting-depth budget amply covering every type registered in `SCHEMA`. -/
def FUEL : Nat := 32

/-- `serialize(SCHEMA, value)` at a registered type. -/
def encodeB (t : BorshType) (v : BValue) : Except BorshError (List Nat) :=
  encodeF FUEL t v

/-- `deserialize(SCHEMA, class, bytes)` at a registered type. -/
def decodeB (t : BorshType) (bs : List Nat) : Except BorshError (BValue × List Nat) :=
  decodeF FUEL t bs

/-- Well-formedness at a registered type. -/
def wfB (t : BorshType) (v : BValue) : Bool :=
  wfF FUEL t v

/-! The layout descriptors registered in `SCHEMA`, transcribed entry by entry
from the source (`export const SCHEMA = new Map<Function, any>([…])`).  Field
names are noted in comments; encoding is positional in the declared order. -/

/-- `[PublicKey, {kind: 'struct', fields: [['keyType', 'u8'], ['data', [32]]]}]` -/
def PublicKeyS : BorshType := .struct [.uint 1, .fixedBytes 32]

/-- `[Signature, {kind: 'struct', fields: [['keyType', 'u8'], ['data', [64]]]}]` -/
def SignatureS : BorshType := .struct [.uint 1, .fixedBytes 64]

/-- `[FunctionCallPermission, {kind: 'struct', fields: [['allowance', {kind: 'option', type: 'u128'}], ['receiverId', 'string'], ['methodNames', ['string']]]}]` -/
def FunctionCallPermissionS : BorshType := .struct [.option (.uint 16), .string, .vec .string]

/-- `[FullAccessPermission, {kind: 'struct', fields: []}]` -/
def FullAccessPermissionS : BorshType := .struct []

/-- The declared variant list of `AccessKeyPermission`:
`values: [['functionCall', FunctionCallPermission], ['fullAccess', FullAccessPermission]]`. -/
def AccessKeyPermissionVariants : List BorshType :=
  [FunctionCallPermissionS, FullAccessPermissionS]

/-- `[AccessKeyPermission, {kind: 'enum', field: 'enum', values: […]}]` -/
def AccessKeyPermissionS : BorshType := .enum AccessKeyPermissionVariants

/-- `[AccessKey, {kind: 'struct', fields: [['nonce', 'u64'], ['permission', AccessKeyPermission]]}]` -/
def AccessKeyS : BorshType := .struct [.uint 8, AccessKeyPermissionS]

/-- `[CreateAccount, {kind: 'struct', fields: []}]` -/
def CreateAccountS : BorshType := .struct []

/-- `[DeployContract, {kind: 'struct', fields: [['code', ['u8']]]}]` -/
def DeployContractS : BorshType := .struct [.vec (.uint 1)]

/-- `[FunctionCall, {kind: 'struct', fields: [['methodName', 'string'], ['args', ['u8']], ['gas', 'u64'], ['deposit', 'u128']]}]` -/
def FunctionCallS : BorshType := .struct [.string, .vec (.uint 1), .uint 8, .uint 16]

/-- `[Transfer, {kind: 'struct', fields: [['deposit', 'u128']]}]` -/
def TransferS : BorshType := .struct [.uint 16]

/-- `[Stake, {kind: 'struct', fields: [['stake', 'u128'], ['publicKey', PublicKey]]}]` -/
def StakeS : BorshType := .struct [.uint 16, PublicKeyS]

/-- `[AddKey, {kind: 'struct', fields: [['publicKey', PublicKey], ['accessKey', AccessKey]]}]` -/
def AddKeyS : BorshType := .struct [PublicKeyS, AccessKeyS]

/-- `[DeleteKey, {kind: 'struct', fields: [['publicKey', PublicKey]]}]` -/
def DeleteKeyS : BorshType := .struct [PublicKeyS]

/-- `[DeleteAccount, {kind: 'struct', fields: [['beneficiaryId', 'string']]}]` -/
def DeleteAccountS : BorshType := .struct [.string]

/-- The declared variant list of the `Action` union, in source order:
`values: [['createAccount', CreateAccount], ['deployContract', DeployContract],
['functionCall', FunctionCall], ['transfer', Transfer], ['stake', Stake],
['addKey', AddKey], ['deleteKey', DeleteKey], ['deleteAccount', DeleteAccount]]`. -/
def ActionVariants : List BorshType :=
  [CreateAccountS, DeployContractS, FunctionCallS, TransferS,
   StakeS, AddKeyS, DeleteKeyS, DeleteAccountS]

/-- `[Action, {kind: 'enum', field: 'enum', values: […]}]` -/
def ActionS : BorshType := .enum ActionVariants

/-- `[Transaction, {kind: 'struct', fields: [['signerId', 'string'], ['publicKey', PublicKey], ['nonce', 'u64'], ['receiverId', 'string'], ['blockHash', [32]], ['actions', [Action]]]}]` -/
def TransactionS : BorshType :=
  .struct [.string, PublicKeyS, .uint 8, .string, .fixedBytes 32, .vec ActionS]

/-- `[SignedTransaction, {kind: 'struct', fields: [['transaction', Transaction], ['signature', Signature]]}]` -/
def SignedTransactionS : BorshType := .struct [TransactionS, SignatureS]

/-- Every layout descriptor registered in the source's `SCHEMA` map, in the
source's registration order. -/
def SCHEMA : List BorshType :=
  [SignatureS, SignedTransactionS, TransactionS, PublicKeyS, AccessKeyS,
   AccessKeyPermissionS, FunctionCallPermissionS, FullAccessPermissionS,
   ActionS, CreateAccountS, DeployContractS, FunctionCallS, TransferS,
   StakeS, AddKeyS, DeleteKeyS, DeleteAccountS]

/-! Variant constructors, transcribed from the source.  JavaScript functions
can be invoked with any number of arguments regardless of their declared
parameter list; the caller's raw `arguments.length` is modelled by the
explicit `argCount` parameter.  A parameter that an undersupplying caller
left `undefined` is modelled as an `Option` where the source consults it on a
path that an arity check does not cut off. -/

/-- A possibly-`undefined` string-valued argument placed into a field. -/
def strOrUndefined : Option (List Nat) → BValue
  | some s => .str s
  | none => .undefined

/-- A possibly-`undefined` string-array-valued argument placed into a field. -/
def strArrOrUndefined : Option (List (List Nat)) → BValue
  | some ms => .arr (ms.map .str)
  | none => .undefined

/-- `fullAccessKey()`: checks `arguments.length != 0`, then returns
`new AccessKey({nonce: 0, permission: new AccessKeyPermission({fullAccess: new FullAccessPermission({})})})`. -/
def fullAccessKey (argCount : Nat) : Except BuildError BValue :=
  if argCount ≠ 0 then .error .arityError
  else .ok (.record [.int 0, .union [none, some (.record [])]])

/-- `functionCallAccessKey(receiverId, methodNames, allowance?)`: the source
performs no `arguments.length` check and directly returns
`new AccessKey({nonce: 0, permission: new AccessKeyPermission({functionCall: new FunctionCallPermission({receiverId, allowance, methodNames})})})`;
an undersupplying caller leaves `receiverId`/`methodNames` `undefined`
(an `undefined` `allowance` is a legitimately absent optional field). -/
def functionCallAccessKey (argCount : Nat) (receiverId : Option (List Nat))
    (methodNames : Option (List (List Nat))) (allowance : Option Nat) :
    Except BuildError BValue :=
  .ok (.record [.int 0,
    .union [some (.record [.opt (allowance.map .int), strOrUndefined receiverId,
                           strArrOrUndefined methodNames]), none]])

/-- `createAccount()`: checks `arguments.length != 0`, then returns
`new Action({createAccount: new CreateAccount({})})`. -/
def createAccount (argCount : Nat) : Except BuildError BValue :=
  if argCount ≠ 0 then .error .arityError
  else .ok (.union [some (.record []), none, none, none, none, none, none, none])

/-- `deployContract(code)`: checks `arguments.length != 1`. -/
def deployContract (argCount : Nat) (code : List Nat) : Except BuildError BValue :=
  if argCount ≠ 1 then .error .arityError
  else .ok (.union [none, some (.record [.arr (code.map .int)]), none, none,
                    none, none, none, none])

/-- `functionCall(methodName, args, gas, deposit)`: checks `arguments.length != 4`. -/
def functionCall (argCount : Nat) (methodName : List Nat) (args : List Nat)
    (gas : Nat) (deposit : Nat) : Except BuildError BValue :=
  if argCount ≠ 4 then .error .arityError
  else .ok (.union [none, none,
    some (.record [.str methodName, .arr (args.map .int), .int gas, .int deposit]),
    none, none, none, none, none])

/-- `transfer(deposit)`: checks `arguments.length != 1`, then returns
`new Action({transfer: new Transfer({deposit})})`. -/
def transfer (argCount : Nat) (deposit : Nat) : Except BuildError BValue :=
  if argCount ≠ 1 then .error .arityError
  else .ok (.union [none, none, none, some (.record [.int deposit]),
                    none, none, none, none])

/-- `stake(stake, publicKey)`: checks `arguments.length != 2`. -/
def stake (argCount : Nat) (stakeAmount : Nat) (publicKey : BValue) :
    Except BuildError BValue :=
  if argCount ≠ 2 then .error .arityError
  else .ok (.union [none, none, none, none,
                    some (.record [.int stakeAmount, publicKey]),
                    none, none, none])

/-- `addKey(publicKey, accessKey)`: checks `arguments.length != 2`. -/
def addKey (argCount : Nat) (publicKey accessKey : BValue) :
    Except BuildError BValue :=
  if argCount ≠ 2 then .error .arityError
  else .ok (.union [none, none, none, none, none,
                    some (.record [publicKey, accessKey]), none, none])

/-- `deleteKey(publicKey)`: checks `arguments.length != 1`. -/
def deleteKey (argCount : Nat) (publicKey : BValue) : Except BuildError BValue :=
  if argCount ≠ 1 then .error .arityError
  else .ok (.union [none, none, none, none, none, none,
                    some (.record [publicKey]), none])

/-- `deleteAccount(beneficiaryId)`: checks `arguments.length != 1`. -/
def deleteAccount (argCount : Nat) (beneficiaryId : List Nat) :
    Except BuildError BValue :=
  if argCount ≠ 1 then .error .arityError
  else .ok (.union [none, none, none, none, none, none, none,
                    some (.record [.str beneficiaryId])])

/-! The transaction assembly and signing protocol, transcribed from the
source.  `signTransaction` takes `accountId?: string`, so the assembled
`signerId` can be `undefined`; both signer delegations receive `accountId`
and `networkId` verbatim. -/

/-- `createTransaction(signerId, publicKey, receiverId, nonce, actions, blockHash)`:
returns `new Transaction({signerId, publicKey, nonce, receiverId, actions, blockHash})`
— a plain field copy with no validation.  The record is positional in the
`SCHEMA` field order `[signerId, publicKey, nonce, receiverId, blockHash, actions]`. -/
def createTransaction (signerId : Option (List Nat)) (publicKey : BValue)
    (receiverId : List Nat) (nonce : Nat) (actions : List BValue)
    (blockHash : List Nat) : BValue :=
  .record [strOrUndefined signerId, publicKey, .int nonce, .str receiverId,
           .bytes blockHash, .arr actions]

/-- The external `Signer` collaborator: `getPublicKey(accountId?, networkId?)`
and `signMessage(message, accountId?, networkId?)` (whose result's
`.signature` field is the raw signature bytes).  Either may fail with an
opaque signer-defined error, modelled as a `Nat` code. -/
structure SignerM where
  getPublicKey : Option (List Nat) → Option (List Nat) → Except Nat BValue
  signMessage : List Nat → Option (List Nat) → Option (List Nat) → Except Nat (List Nat)

/-- A failed `signTransaction` run: either a signer-defined error propagated
unchanged, or a codec error from `serialize` (which throws in the source). -/
inductive SignFailure where
  | signerError (code : Nat)
  | borshError (e : BorshError)
deriving DecidableEq, Repr

/-- The ordered protocol events of a `signTransaction` run: the two signer
delegations (with the arguments passed to them), and the internal assemble /
encode / hash / package steps. -/
inductive SignStep where
  | getPublicKey (accountId networkId : Option (List Nat))
  | assemble
  | encode
  | hash
  | signMessage (message : List Nat) (accountId networkId : Option (List Nat))
  | package
deriving DecidableEq, Repr

/-- `publicKey.keyType`: the first field of a `PublicKey`-shaped record
(a JavaScript property access, `undefined` on any other shape). -/
def pkKeyType : BValue → BValue
  | .record (kt :: _) => kt
  | _ => .undefined

/-- `signTransaction(receiverId, nonce, actions, blockHash, signer, accountId?, networkId?)`,
transcribed statement by statement from the source:
`const publicKey = await signer.getPublicKey(accountId, networkId);`
`const transaction = createTransaction(accountId, publicKey, receiverId, nonce, actions, blockHash);`
`const message = serialize(SCHEMA, transaction);`
`const hash = new Uint8Array(sha256.sha256.array(message));`
`const signature = await signer.signMessage(message, accountId, networkId);`
`const signedTx = new SignedTransaction({transaction, signature: new Signature({keyType: publicKey.keyType, data: signature.signature})});`
`return [hash, signedTx];`
The digest (`js-sha256`, an external dependency) is the parameter `hashFn`.
Alongside the source's `[hash, signedTx]` result the model returns the
ordered list of protocol events of the run. -/
def signTransaction (hashFn : List Nat → List Nat) (signer : SignerM)
    (receiverId : List Nat) (nonce : Nat) (actions : List BValue)
    (blockHash : List Nat) (accountId networkId : Option (List Nat)) :
    List SignStep × Except SignFailure (List Nat × BValue) :=
  match signer.getPublicKey accountId networkId with
  | .error e => ([.getPublicKey accountId networkId], .error (.signerError e))
  | .ok publicKey =>
    let transaction := createTransaction accountId publicKey receiverId nonce actions blockHash
    match encodeB TransactionS transaction with
    | .error e =>
      ([.getPublicKey accountId networkId, .assemble, .encode],
       .error (.borshError e))
    | .ok message =>
      let hash := hashFn message
      match signer.signMessage message accountId networkId with
      | .error e =>
        ([.getPublicKey accountId networkId, .assemble, .encode, .hash,
          .signMessage message accountId networkId],
         .error (.signerError e))
      | .ok sig =>
        ([.getPublicKey accountId networkId, .assemble, .encode, .hash,
          .signMessage message accountId networkId, .package],
         .ok (hash, .record [transaction, .record [pkKeyType publicKey, .bytes sig]]))

/-! Concrete test fixtures: a mock Signer that returns a fixed public key and
a fixed signature, and a fixed 32-byte digest function. -/

/-- A fixed ed25519-style public key value (keyType 0, 32 data bytes). -/
def mockPk : BValue := .record [.int 0, .bytes (List.replicate 32 7)]

/-- A mock Signer: `getPublicKey` always returns `mockPk`; `signMessage`
always returns a fixed 64-byte signature. -/
def mockSigner : SignerM :=
  ⟨fun _ _ => .ok mockPk, fun _ _ _ => .ok (List.replicate 64 9)⟩

/-- A fixed 32-byte digest function standing in for sha256. -/
def mockHash (_ : List Nat) : List Nat := List.replicate 32 0

/-- UTF-8 bytes of `"bob.test"` truncated to three bytes `"bob"`. -/
def mockReceiver : List Nat := [98, 111, 98]

/-- UTF-8 bytes of `"alice"`. -/
def mockAccount : List Nat := [97, 108, 105, 99, 101]

/-- A fixed 32-byte reference block hash. -/
def mockBlockHash : List Nat := List.replicate 32 5

/-- The canonical encoding of the transaction assembled from the mock
fixtures (signer `mockAccount`, key `mockPk`, nonce 1, receiver
`mockReceiver`, no actions, block hash `mockBlockHash`), written out field by
field. -/
def mockMessage : List Nat :=
  toLE 4 mockAccount.length ++ mockAccount ++ [0] ++ List.replicate 32 7 ++
  toLE 8 1 ++ toLE 4 mockReceiver.length ++ mockReceiver ++ mockBlockHash ++
  toLE 4 0

/-- Recognizes the assemble step of a signing trace. -/
def isAssembleStep : SignStep → Bool
  | .assemble => true
  | _ => false

/-- Recognizes the key-retrieval delegation of a signing trace. -/
def isKeyRetrievalStep : SignStep → Bool
  | .getPublicKey _ _ => true
  | _ => false

/-! ### Basic facts about the byte-level primitives -/

/-- A `w`-byte little-endian encoding has exactly `w` bytes. -/
theorem toLE_length (w : Nat) : ∀ n, (toLE w n).length = w := by
  induction w with
  | zero => intro n; rfl
  | succ w ih => intro n; simp [toLE, ih]

/-- Little-endian round-trip for numbers that fit the declared width. -/
theorem fromLE_toLE (w : Nat) : ∀ n, n < 256 ^ w → fromLE (toLE w n) = n := by
  induction w with
  | zero =>
    intro n h
    simp only [pow_zero, Nat.lt_one_iff] at h
    simp [toLE, fromLE, h]
  | succ w ih =>
    intro n h
    have hdiv : n / 256 < 256 ^ w := by
      apply Nat.div_lt_of_lt_mul
      rw [pow_succ] at h
      omega
    simp only [toLE, fromLE, ih (n / 256) hdiv]
    omega

/-- Reading exactly the length of a prefix returns that prefix and the rest. -/
theorem readBytes_exact : ∀ (xs rest : List Nat),
    readBytes xs.length (xs ++ rest) = .ok (xs, rest) := by
  intro xs
  induction xs with
  | nil => intro rest; rfl
  | cons b xs ih => intro rest; simp [readBytes, ih]

/-! ### Facts about union slot lists -/

/-- A well-shaped union value has one slot per declared variant. -/
theorem wfSlotsWith_length (w : BorshType → BValue → Bool) :
    ∀ ts slots, wfSlotsWith w ts slots = true → slots.length = ts.length := by
  intro ts
  induction ts with
  | nil =>
    intro slots h
    cases slots with
    | nil => rfl
    | cons o s => simp [wfSlotsWith] at h
  | cons t ts ih =>
    intro slots h
    cases slots with
    | nil => simp [wfSlotsWith] at h
    | cons o s =>
      cases o with
      | none => simpa using ih s (by simpa [wfSlotsWith] using h)
      | some v =>
        simp only [wfSlotsWith, Bool.and_eq_true] at h
        simpa using ih s h.2

/-- A slot list is all-`none` exactly when it has no populated slot. -/
theorem all_isNone_countSome : ∀ slots : List (Option BValue),
    slots.all Option.isNone = true ↔ countSome slots = 0 := by
  intro slots
  induction slots with
  | nil => simp [countSome]
  | cons o s ih =>
    cases o with
    | none => simpa [countSome] using ih
    | some v => simp [countSome]

/-- An all-`none` slot list is a replicate of `none`. -/
theorem all_isNone_eq_replicate : ∀ slots : List (Option BValue),
    slots.all Option.isNone = true → slots = List.replicate slots.length none := by
  intro slots
  induction slots with
  | nil => intro _; rfl
  | cons o s ih =>
    intro h
    cases o with
    | none =>
      simp only [List.all_cons, Option.isNone_none, Bool.true_and] at h
      simpa [List.replicate_succ] using ih h
    | some v => simp at h

/-- `onlyJust` yields nothing exactly when the number of populated slots is
different from one. -/
theorem onlyJust_none_iff : ∀ slots : List (Option BValue),
    onlyJust slots = none ↔ countSome slots ≠ 1 := by
  intro slots
  induction slots with
  | nil => simp [onlyJust, countSome]
  | cons o s ih =>
    cases o with
    | none => simpa [onlyJust, countSome] using ih
    | some v =>
      simp only [onlyJust, countSome]
      by_cases h : s.all Option.isNone
      · have := (all_isNone_countSome s).mp h
        simp [h, this]
      · have hne : countSome s ≠ 0 := fun hc => h ((all_isNone_countSome s).mpr hc)
        simp [h]
        omega

/-- Unfolding of `mkSlots` at index zero. -/
theorem mkSlots_zero (n : Nat) (v : BValue) :
    mkSlots (n + 1) 0 v = some v :: List.replicate n none := by
  simp [mkSlots]

/-- Unfolding of `mkSlots` at a successor index. -/
theorem mkSlots_succ (n i : Nat) (v : BValue) :
    mkSlots (n + 1) (i + 1) v = none :: mkSlots n i v := by
  simp [mkSlots, List.replicate_succ, Nat.succ_sub_succ]

/-- If a well-shaped union value has exactly one populated slot, the declared
list yields the payload type at that index, the payload is well-formed, and
the slot list is fully determined by the index, the payload and the declared
variant count. -/
theorem wfSlots_onlyJust (w : BorshType → BValue → Bool) :
    ∀ ts slots i v, wfSlotsWith w ts slots = true → onlyJust slots = some (i, v) →
      ∃ t, payloadType ts i = some t ∧ w t v = true ∧ slots = mkSlots ts.length i v := by
  intro ts
  induction ts with
  | nil =>
    intro slots i v hwf hoj
    cases slots with
    | nil => simp [onlyJust] at hoj
    | cons o s => simp [wfSlotsWith] at hwf
  | cons t ts ih =>
    intro slots i v hwf hoj
    cases slots with
    | nil => simp [wfSlotsWith] at hwf
    | cons o s =>
      cases o with
      | some v0 =>
        simp only [wfSlotsWith, Bool.and_eq_true] at hwf
        simp only [onlyJust] at hoj
        by_cases hall : s.all Option.isNone
        · rw [if_pos hall] at hoj
          injection hoj with hpair
          injection hpair with hi hv
          subst hi; subst hv
          refine ⟨t, rfl, hwf.1, ?_⟩
          have hrep := all_isNone_eq_replicate s hall
          have hlen : s.length = ts.length := wfSlotsWith_length w ts s hwf.2
          simp only [List.length_cons, mkSlots_zero]
          rw [hrep, hlen]
        · rw [if_neg hall] at hoj
          exact absurd hoj (by simp)
      | none =>
        simp only [wfSlotsWith] at hwf
        simp only [onlyJust, Option.map_eq_some'] at hoj
        obtain ⟨⟨i0, v0⟩, hoj0, hpair⟩ := hoj
        injection hpair with hi hv
        subst hv
        subst hi
        obtain ⟨t0, hpt, hwv, hslots⟩ := ih s i0 v0 hwf hoj0
        refine ⟨t0, ?_, hwv, ?_⟩
        · simpa [payloadType] using hpt
        · simp only [List.length_cons, mkSlots_succ]
          rw [← hslots]

/-- Indices at or past the declared variant count have no payload type. -/
theorem payloadType_none : ∀ (ts : List BorshType) (i : Nat),
    ts.length ≤ i → payloadType ts i = none := by
  intro ts
  induction ts with
  | nil => intro i _; cases i <;> rfl
  | cons t ts ih =>
    intro i h
    cases i with
    | zero => simp at h
    | succ i => exact ih i (by simpa using h)

/-! ### Round-trip and totality of the field/element sequencers, parameterized
by the element codec -/

/-- Field-list round-trip, given the element-level round-trip. -/
theorem encFields_rt (enc : BorshType → BValue → Except BorshError (List Nat))
    (dec : BorshType → List Nat → Except BorshError (BValue × List Nat))
    (w : BorshType → BValue → Bool)
    (H : ∀ t v bs rest, w t v = true → enc t v = .ok bs → dec t (bs ++ rest) = .ok (v, rest)) :
    ∀ ts vs bs rest, wfFieldsWith w ts vs = true → encFields enc ts vs = .ok bs →
      decFields dec ts (bs ++ rest) = .ok (vs, rest) := by
  intro ts
  induction ts with
  | nil =>
    intro vs bs rest hwf henc
    cases vs with
    | nil =>
      simp only [encFields, Except.ok.injEq] at henc
      subst henc
      simp [decFields]
    | cons v vs => simp [wfFieldsWith] at hwf
  | cons t ts ih =>
    intro vs bs rest hwf henc
    cases vs with
    | nil => simp [wfFieldsWith] at hwf
    | cons v vs =>
      simp only [wfFieldsWith, Bool.and_eq_true] at hwf
      simp only [encFields] at henc
      cases h1 : enc t v with
      | error e => rw [h1] at henc; simp at henc
      | ok b =>
        rw [h1] at henc
        cases h2 : encFields enc ts vs with
        | error e => rw [h2] at henc; simp at henc
        | ok r =>
          rw [h2] at henc
          simp only [Except.ok.injEq] at henc
          subst henc
          simp only [decFields, List.append_assoc]
          simp only [H t v b (r ++ rest) hwf.1 h1, ih vs r rest hwf.2 h2]

/-- Element-sequence round-trip, given the element-level round-trip. -/
theorem encSeq_rt (enc : BValue → Except BorshError (List Nat))
    (dec : List Nat → Except BorshError (BValue × List Nat))
    (w : BValue → Bool)
    (H : ∀ v bs rest, w v = true → enc v = .ok bs → dec (bs ++ rest) = .ok (v, rest)) :
    ∀ vs bs rest, vs.all w = true → encSeq enc vs = .ok bs →
      decSeq dec vs.length (bs ++ rest) = .ok (vs, rest) := by
  intro vs
  induction vs with
  | nil =>
    intro bs rest _ henc
    simp only [encSeq, Except.ok.injEq] at henc
    subst henc
    simp [decSeq]
  | cons v vs ih =>
    intro bs rest hwf henc
    simp only [List.all_cons, Bool.and_eq_true] at hwf
    simp only [encSeq] at henc
    cases h1 : enc v with
    | error e => rw [h1] at henc; simp at henc
    | ok b =>
      rw [h1] at henc
      cases h2 : encSeq enc vs with
      | error e => rw [h2] at henc; simp at henc
      | ok r =>
        rw [h2] at henc
        simp only [Except.ok.injEq] at henc
        subst henc
        simp only [List.length_cons, decSeq, List.append_assoc]
        simp only [H v b (r ++ rest) hwf.1 h1, ih r rest hwf.2 h2]

/-- Field-list encoding succeeds on well-shaped field values, given
element-level totality. -/
theorem encFields_total (enc : BorshType → BValue → Except BorshError (List Nat))
    (w : BorshType → BValue → Bool)
    (H : ∀ t v, w t v = true → ∃ bs, enc t v = .ok bs) :
    ∀ ts vs, wfFieldsWith w ts vs = true → ∃ bs, encFields enc ts vs = .ok bs := by
  intro ts
  induction ts with
  | nil =>
    intro vs hwf
    cases vs with
    | nil => exact ⟨[], rfl⟩
    | cons v vs => simp [wfFieldsWith] at hwf
  | cons t ts ih =>
    intro vs hwf
    cases vs with
    | nil => simp [wfFieldsWith] at hwf
    | cons v vs =>
      simp only [wfFieldsWith, Bool.and_eq_true] at hwf
      obtain ⟨b, hb⟩ := H t v hwf.1
      obtain ⟨r, hr⟩ := ih vs hwf.2
      exact ⟨b ++ r, by simp [encFields, hb, hr]⟩

/-- Element-sequence encoding succeeds on well-formed elements, given
element-level totality. -/
theorem encSeq_total (enc : BValue → Except BorshError (List Nat))
    (w : BValue → Bool)
    (H : ∀ v, w v = true → ∃ bs, enc v = .ok bs) :
    ∀ vs, vs.all w = true → ∃ bs, encSeq enc vs = .ok bs := by
  intro vs
  induction vs with
  | nil => intro _; exact ⟨[], rfl⟩
  | cons v vs ih =>
    intro hwf
    simp only [List.all_cons, Bool.and_eq_true] at hwf
    obtain ⟨b, hb⟩ := H v hwf.1
    obtain ⟨r, hr⟩ := ih hwf.2
    exact ⟨b ++ r, by simp [encSeq, hb, hr]⟩

/-! ### Totality and round-trip of the codec -/

/-- Encoding is total on well-formed values (uniformly in the fuel). -/
theorem encodeF_total : ∀ (f : Nat) (t : BorshType) (v : BValue),
    wfF f t v = true → ∃ bs, encodeF f t v = .ok bs := by
  intro f
  induction f with
  | zero => intro t v hwf; simp [wfF] at hwf
  | succ f ih =>
    intro t v hwf
    cases t <;> cases v <;> try (simp [wfF] at hwf; done)
    case uint.int w n =>
      simp only [wfF, decide_eq_true_eq] at hwf
      exact ⟨toLE w n, by simp [encodeF, hwf]⟩
    case string.str s =>
      exact ⟨toLE 4 s.length ++ s, by simp [encodeF]⟩
    case fixedBytes.bytes n d =>
      simp only [wfF, Bool.and_eq_true, decide_eq_true_eq] at hwf
      exact ⟨d, by simp [encodeF, hwf.1]⟩
    case vec.arr t vs =>
      simp only [wfF, Bool.and_eq_true, decide_eq_true_eq] at hwf
      obtain ⟨body, hb⟩ := encSeq_total (encodeF f t) (wfF f t) (fun v hv => ih t v hv) vs hwf.2
      exact ⟨toLE 4 vs.length ++ body, by simp [encodeF, hb]⟩
    case option.opt t o =>
      cases o with
      | none => exact ⟨[0], by simp [encodeF]⟩
      | some v =>
        simp only [wfF] at hwf
        obtain ⟨b, hb⟩ := ih t v hwf
        exact ⟨1 :: b, by simp [encodeF, hb]⟩
    case struct.record ts vs =>
      simp only [wfF] at hwf
      obtain ⟨bs, hb⟩ := encFields_total (encodeF f) (wfF f) ih ts vs hwf
      exact ⟨bs, by simpa [encodeF] using hb⟩
    case enum.union ts slots =>
      simp only [wfF, Bool.and_eq_true, decide_eq_true_eq] at hwf
      obtain ⟨hslots, hcount⟩ := hwf
      cases hoj : onlyJust slots with
      | none => exact absurd hcount ((onlyJust_none_iff slots).mp hoj)
      | some p =>
        obtain ⟨i, v0⟩ := p
        obtain ⟨t0, hpt, hwv, _⟩ := wfSlots_onlyJust (wfF f) ts slots i v0 hslots hoj
        obtain ⟨b, hb⟩ := ih t0 v0 hwv
        exact ⟨i :: b, by simp [encodeF, hoj, hpt, hb]⟩

/-- Round-trip: decoding the canonical encoding of a well-formed value yields
the value back and consumes exactly the encoding (uniformly in the fuel). -/
theorem encodeF_decodeF : ∀ (f : Nat) (t : BorshType) (v : BValue) (bs rest : List Nat),
    wfF f t v = true → encodeF f t v = .ok bs →
      decodeF f t (bs ++ rest) = .ok (v, rest) := by
  intro f
  induction f with
  | zero => intro t v bs rest hwf _; simp [wfF] at hwf
  | succ f ih =>
    intro t v bs rest hwf henc
    cases t <;> cases v <;> try (simp [wfF] at hwf; done)
    case uint.int w n =>
      simp only [wfF, decide_eq_true_eq] at hwf
      simp only [encodeF] at henc
      rw [if_pos hwf] at henc
      simp only [Except.ok.injEq] at henc
      subst henc
      have hr := readBytes_exact (toLE w n) rest
      rw [toLE_length] at hr
      simp only [decodeF, hr, fromLE_toLE w n hwf]
    case string.str s =>
      simp only [wfF, Bool.and_eq_true, decide_eq_true_eq] at hwf
      simp only [encodeF, Except.ok.injEq] at henc
      subst henc
      rw [List.append_assoc]
      have h4 := readBytes_exact (toLE 4 s.length) (s ++ rest)
      rw [toLE_length] at h4
      have hlen : fromLE (toLE 4 s.length) = s.length :=
        fromLE_toLE 4 s.length (by have := hwf.1; norm_num; omega)
      simp only [decodeF, h4, hlen, readBytes_exact s rest]
    case fixedBytes.bytes n d =>
      simp only [wfF, Bool.and_eq_true, decide_eq_true_eq] at hwf
      simp only [encodeF] at henc
      rw [if_pos hwf.1] at henc
      simp only [Except.ok.injEq] at henc
      subst henc
      have hd := readBytes_exact d rest
      rw [hwf.1] at hd
      simp only [decodeF, hd]
    case vec.arr t vs =>
      simp only [wfF, Bool.and_eq_true, decide_eq_true_eq] at hwf
      obtain ⟨hlen, hall⟩ := hwf
      simp only [encodeF] at henc
      cases hseq : encSeq (encodeF f t) vs with
      | error e => rw [hseq] at henc; simp at henc
      | ok body =>
        rw [hseq] at henc
        simp only [Except.ok.injEq] at henc
        subst henc
        rw [List.append_assoc]
        have h4 := readBytes_exact (toLE 4 vs.length) (body ++ rest)
        rw [toLE_length] at h4
        have hlen4 : fromLE (toLE 4 vs.length) = vs.length :=
          fromLE_toLE 4 vs.length (by norm_num; omega)
        have hd := encSeq_rt (encodeF f t) (decodeF f t) (wfF f t)
          (fun v bs rest hw he => ih t v bs rest hw he) vs body rest hall hseq
        simp only [decodeF, h4, hlen4, hd]
    case option.opt t o =>
      cases o with
      | none =>
        simp only [encodeF, Except.ok.injEq] at henc
        subst henc
        simp [decodeF]
      | some v =>
        simp only [wfF] at hwf
        simp only [encodeF] at henc
        cases h1 : encodeF f t v with
        | error e => rw [h1] at henc; simp at henc
        | ok b =>
          rw [h1] at henc
          simp only [Except.ok.injEq] at henc
          subst henc
          simp only [List.cons_append, decodeF, ih t v b rest hwf h1]
    case struct.record ts vs =>
      simp only [wfF] at hwf
      simp only [encodeF] at henc
      have hd := encFields_rt (encodeF f) (decodeF f) (wfF f) ih ts vs bs rest hwf henc
      simp only [decodeF, hd]
    case enum.union ts slots =>
      simp only [wfF, Bool.and_eq_true, decide_eq_true_eq] at hwf
      obtain ⟨hslots, hcount⟩ := hwf
      simp only [encodeF] at henc
      cases hoj : onlyJust slots with
      | none => rw [hoj] at henc; simp at henc
      | some p =>
        obtain ⟨i, v0⟩ := p
        simp only [hoj] at henc
        cases hpt : payloadType ts i with
        | none => rw [hpt] at henc; simp at henc
        | some t0 =>
          simp only [hpt] at henc
          cases h1 : encodeF f t0 v0 with
          | error e => rw [h1] at henc; simp at henc
          | ok b =>
            rw [h1] at henc
            simp only [Except.ok.injEq] at henc
            subst henc
            obtain ⟨t1, hpt1, hwv, hsl⟩ := wfSlots_onlyJust (wfF f) ts slots i v0 hslots hoj
            rw [hpt] at hpt1
            injection hpt1 with ht
            subst ht
            simp only [List.cons_append, decodeF, hpt, ih t0 v0 b rest hwv h1]
            rw [hsl]

/-! ### Error behaviour of the codec on ill-formed input -/

/-- Encoding a union whose number of populated slots differs from one fails
with `VariantError`, regardless of the declared variant list. -/
theorem encode_union_variantError (f : Nat) (ts : List BorshType)
    (slots : List (Option BValue)) (h : countSome slots ≠ 1) :
    encodeF (f + 1) (.enum ts) (.union slots) = .error .variantError := by
  simp [encodeF, (onlyJust_none_iff slots).mpr h]

/-- Decoding a union whose discriminant byte is at least the declared variant
count fails with `SchemaError`. -/
theorem decode_union_badTag (f : Nat) (ts : List BorshType) (i : Nat)
    (rest : List Nat) (h : ts.length ≤ i) :
    decodeF (f + 1) (.enum ts) (i :: rest) = .error .schemaError := by
  simp [decodeF, payloadType_none ts i h]

/-- Encoding a keyType/data record (the common shape of `PublicKey` and
`Signature`) whose data has the wrong length fails with `SchemaError`. -/
theorem encode_keyed_bytes_badLen (f m kt : Nat) (d : List Nat)
    (hkt : kt < 256) (hlen : d.length ≠ m) :
    encodeF (f + 1 + 1) (.struct [.uint 1, .fixedBytes m])
      (.record [.int kt, .bytes d]) = .error .schemaError := by
  simp [encodeF, encFields, pow_one, hkt, hlen]

/-- Encoding a Transaction whose blockHash has the wrong length fails with
`SchemaError` (the earlier fields being encodable). -/
theorem encode_tx_badBlockHash (f : Nat) (s : List Nat) (kt : Nat)
    (pkd : List Nat) (nonce : Nat) (r bh : List Nat) (acts : List BValue)
    (hkt : kt < 256) (hpkd : pkd.length = 32) (hnonce : nonce < 256 ^ 8)
    (hbh : bh.length ≠ 32) :
    encodeF (f + 1 + 1 + 1) TransactionS
      (.record [.str s, .record [.int kt, .bytes pkd], .int nonce,
                .str r, .bytes bh, .arr acts]) = .error .schemaError := by
  have hn : nonce < 18446744073709551616 := by simpa using hnonce
  simp [TransactionS, PublicKeyS, encodeF, encFields, pow_one, hkt, hpkd, hn, hbh]

/-! ### The claims -/

/-- C1: for every run of `signTransaction` that returns a SignedTransaction,
the byte sequence passed to the Signer's `signMessage` call is exactly the
canonical encoding of the Transaction embedded in the returned
SignedTransaction — the Transaction is not re-encoded, reordered, or mutated
between encoding and packaging. -/
theorem C1_signed_bytes_are_embedded_encoding :
    ∀ hashFn signer receiverId nonce actions blockHash accountId networkId digest stx,
      (signTransaction hashFn signer receiverId nonce actions blockHash accountId networkId).2 =
        .ok (digest, stx) →
      ∃ tx sig msg, stx = .record [tx, sig] ∧ encodeB TransactionS tx = .ok msg ∧
        SignStep.signMessage msg accountId networkId ∈
          (signTransaction hashFn signer receiverId nonce actions blockHash accountId networkId).1 := by
  intro hashFn signer receiverId nonce actions blockHash accountId networkId digest stx hrun
  cases hpk : signer.getPublicKey accountId networkId with
  | error e => simp [signTransaction, hpk] at hrun
  | ok pk =>
    cases henc : encodeB TransactionS
        (createTransaction accountId pk receiverId nonce actions blockHash) with
    | error e => simp [signTransaction, hpk, henc] at hrun
    | ok msg =>
      cases hsig : signer.signMessage msg accountId networkId with
      | error e => simp [signTransaction, hpk, henc, hsig] at hrun
      | ok sig =>
        simp only [signTransaction, hpk, henc, hsig, Except.ok.injEq, Prod.mk.injEq] at hrun
        refine ⟨createTransaction accountId pk receiverId nonce actions blockHash,
          .record [pkKeyType pk, .bytes sig], msg, hrun.2.symm, henc, ?_⟩
        simp [signTransaction, hpk, henc, hsig]

/-- C1 witness: with the mock Signer and concrete inputs, the embedded
Transaction of the produced SignedTransaction re-encodes to exactly the bytes
handed to the `signMessage` delegation. -/
theorem C1_witness :
    ∃ tx sig msg,
      (BValue.record [createTransaction (some mockAccount) mockPk mockReceiver 1 [] mockBlockHash,
        .record [.int 0, .bytes (List.replicate 64 9)]]) = .record [tx, sig] ∧
      encodeB TransactionS tx = .ok msg ∧
      SignStep.signMessage msg (some mockAccount) none ∈
        (signTransaction mockHash mockSigner mockReceiver 1 [] mockBlockHash
          (some mockAccount) none).1 :=
  C1_signed_bytes_are_embedded_encoding mockHash mockSigner mockReceiver 1 [] mockBlockHash
    (some mockAccount) none (List.replicate 32 0)
    (.record [createTransaction (some mockAccount) mockPk mockReceiver 1 [] mockBlockHash,
      .record [.int 0, .bytes (List.replicate 64 9)]]) (by rfl)

/-- C2 counterexample: the claim says every variant constructor — including
`functionCallAccessKey` — validates the supplied argument count and fails
with an `ArityError` on mismatch with no silent defaulting.  But
`functionCallAccessKey` invoked with zero arguments does not fail: it returns
an AccessKey whose required `receiverId` and `methodNames` fields are
silently left `undefined`. -/
theorem C2_counterexample :
    functionCallAccessKey 0 none none none ≠ .error .arityError ∧
    functionCallAccessKey 0 none none none =
      .ok (.record [.int 0, .union [some (.record [.opt none, .undefined, .undefined]), none]]) :=
  ⟨by simp [functionCallAccessKey], rfl⟩

/-- C2 (amended): all variant constructors except `functionCallAccessKey`
(`fullAccessKey`, `createAccount`, `deployContract`, `functionCall`,
`transfer`, `stake`, `addKey`, `deleteKey`, `deleteAccount`) validate the
exact number of supplied arguments against the variant's declared shape and
fail immediately with an `ArityError` on any mismatch;
`functionCallAccessKey` performs no arity check and never fails, silently
leaving missing required fields unset. -/
theorem C2_arity_enforcement :
    (∀ n, n ≠ 0 → fullAccessKey n = .error .arityError) ∧
    (∀ n, n ≠ 0 → createAccount n = .error .arityError) ∧
    (∀ n code, n ≠ 1 → deployContract n code = .error .arityError) ∧
    (∀ n m a g d, n ≠ 4 → functionCall n m a g d = .error .arityError) ∧
    (∀ n d, n ≠ 1 → transfer n d = .error .arityError) ∧
    (∀ n s p, n ≠ 2 → stake n s p = .error .arityError) ∧
    (∀ n p k, n ≠ 2 → addKey n p k = .error .arityError) ∧
    (∀ n p, n ≠ 1 → deleteKey n p = .error .arityError) ∧
    (∀ n b, n ≠ 1 → deleteAccount n b = .error .arityError) ∧
    (∀ n r m a, ∃ v, functionCallAccessKey n r m a = .ok v) := by
  refine ⟨?_, ?_, ?_, ?_, ?_, ?_, ?_, ?_, ?_, ?_⟩
  · intro n hn; simp [fullAccessKey, hn]
  · intro n hn; simp [createAccount, hn]
  · intro n code hn; simp [deployContract, hn]
  · intro n m a g d hn; simp [functionCall, hn]
  · intro n d hn; simp [transfer, hn]
  · intro n s p hn; simp [NearTx.stake, hn]
  · intro n p k hn; simp [addKey, hn]
  · intro n p hn; simp [deleteKey, hn]
  · intro n b hn; simp [deleteAccount, hn]
  · intro n r m a; exact ⟨_, rfl⟩

/-- C2 witness: each arity-checking constructor rejects a wrong argument
count, and `functionCallAccessKey` accepts any. -/
theorem C2_witness :
    fullAccessKey 1 = .error .arityError ∧
    createAccount 1 = .error .arityError ∧
    deployContract 0 [] = .error .arityError ∧
    functionCall 3 [] [] 0 0 = .error .arityError ∧
    transfer 0 0 = .error .arityError ∧
    stake 1 0 mockPk = .error .arityError ∧
    addKey 0 mockPk mockPk = .error .arityError ∧
    deleteKey 2 mockPk = .error .arityError ∧
    deleteAccount 0 [] = .error .arityError ∧
    ∃ v, functionCallAccessKey 2 (some []) (some []) none = .ok v :=
  ⟨C2_arity_enforcement.1 1 (by decide),
   C2_arity_enforcement.2.1 1 (by decide),
   C2_arity_enforcement.2.2.1 0 [] (by decide),
   C2_arity_enforcement.2.2.2.1 3 [] [] 0 0 (by decide),
   C2_arity_enforcement.2.2.2.2.1 0 0 (by decide),
   C2_arity_enforcement.2.2.2.2.2.1 1 0 mockPk (by decide),
   C2_arity_enforcement.2.2.2.2.2.2.1 0 mockPk mockPk (by decide),
   C2_arity_enforcement.2.2.2.2.2.2.2.1 2 mockPk (by decide),
   C2_arity_enforcement.2.2.2.2.2.2.2.2.1 0 [] (by decide),
   C2_arity_enforcement.2.2.2.2.2.2.2.2.2 2 (some []) (some []) none⟩

/-- C3 counterexample: the claim says every `signTransaction` run first
assembles the Transaction and only later delegates key retrieval.  In a
successful concrete run, the key-retrieval delegation (trace position 0)
strictly precedes assembly (trace position 1), so assembly does not come
first. -/
theorem C3_counterexample :
    ((signTransaction mockHash mockSigner mockReceiver 1 [] mockBlockHash
        (some mockAccount) none).2).isOk = true ∧
    ¬ ((signTransaction mockHash mockSigner mockReceiver 1 [] mockBlockHash
          (some mockAccount) none).1.findIdx isAssembleStep <
       (signTransaction mockHash mockSigner mockReceiver 1 [] mockBlockHash
          (some mockAccount) none).1.findIdx isKeyRetrievalStep) :=
  ⟨by decide, by decide⟩

/-- C3 (amended): in every successful `signTransaction` run the protocol
steps occur in this order: first key retrieval is delegated to the external
Signer, then the Transaction is assembled, then canonically encoded, then the
encoding is hashed, then signing is delegated, and finally the
SignedTransaction is packaged. -/
theorem C3_step_order :
    ∀ hashFn signer receiverId nonce actions blockHash accountId networkId result,
      (signTransaction hashFn signer receiverId nonce actions blockHash accountId networkId).2 =
        .ok result →
      ∃ msg, (signTransaction hashFn signer receiverId nonce actions blockHash accountId networkId).1 =
        [.getPublicKey accountId networkId, .assemble, .encode, .hash,
         .signMessage msg accountId networkId, .package] := by
  intro hashFn signer receiverId nonce actions blockHash accountId networkId result hrun
  cases hpk : signer.getPublicKey accountId networkId with
  | error e => simp [signTransaction, hpk] at hrun
  | ok pk =>
    cases henc : encodeB TransactionS
        (createTransaction accountId pk receiverId nonce actions blockHash) with
    | error e => simp [signTransaction, hpk, henc] at hrun
    | ok msg =>
      cases hsig : signer.signMessage msg accountId networkId with
      | error e => simp [signTransaction, hpk, henc, hsig] at hrun
      | ok sig => exact ⟨msg, by simp [signTransaction, hpk, henc, hsig]⟩

/-- C3 witness: the amended order holds of the concrete mock run. -/
theorem C3_witness :
    ∃ msg, (signTransaction mockHash mockSigner mockReceiver 1 [] mockBlockHash
        (some mockAccount) none).1 =
      [.getPublicKey (some mockAccount) none, .assemble, .encode, .hash,
       .signMessage msg (some mockAccount) none, .package] :=
  C3_step_order mockHash mockSigner mockReceiver 1 [] mockBlockHash
    (some mockAccount) none
    (List.replicate 32 0,
     .record [createTransaction (some mockAccount) mockPk mockReceiver 1 [] mockBlockHash,
       .record [.int 0, .bytes (List.replicate 64 9)]]) (by rfl)

/-- C4: for every record/union type registered in the schema and every
well-formed value `v` of that type, encoding succeeds and decoding the
canonical encoding of `v` yields a value structurally equal to `v`,
consuming the entire encoding: `decode(encode(v)) == v`. -/
theorem C4_schema_roundtrip :
    ∀ t ∈ SCHEMA, ∀ v, wfB t v = true →
      ∃ bs, encodeB t v = .ok bs ∧ decodeB t bs = .ok (v, []) := by
  intro t _ v hwf
  obtain ⟨bs, hbs⟩ := encodeF_total FUEL t v hwf
  refine ⟨bs, hbs, ?_⟩
  have h := encodeF_decodeF FUEL t v bs [] hwf hbs
  simpa [decodeB] using h

/-- C4 witness: the Transfer record with deposit 123 round-trips at its
registered schema type. -/
theorem C4_witness :
    TransferS ∈ SCHEMA ∧ wfB TransferS (.record [.int 123]) = true ∧
    ∃ bs, encodeB TransferS (.record [.int 123]) = .ok bs ∧
      decodeB TransferS bs = .ok (.record [.int 123], []) :=
  ⟨by simp only [SCHEMA]; repeat first | exact List.Mem.head _ | apply List.Mem.tail _,
   by decide,
   C4_schema_roundtrip TransferS
     (by simp only [SCHEMA]; repeat first | exact List.Mem.head _ | apply List.Mem.tail _)
     (.record [.int 123]) (by decide)⟩

/-- C5: encoding the Action built by `transfer(123)` produces exactly the
byte `3` — transfer's zero-based index among the 8 declared Action variants —
followed by the 16-byte little-endian u128 encoding of 123. -/
theorem C5_transfer_discriminant :
    transfer 1 123 =
      .ok (.union [none, none, none, some (.record [.int 123]), none, none, none, none]) ∧
    encodeB ActionS
        (.union [none, none, none, some (.record [.int 123]), none, none, none, none]) =
      .ok [3, 123, 0, 0, 0, 0, 0, 0, 0, 0, 0, 0, 0, 0, 0, 0, 0] ∧
    payloadType ActionVariants 3 = some TransferS ∧
    ActionVariants.length = 8 :=
  ⟨rfl, rfl, rfl, rfl⟩

/-- C6: encoding a PublicKey, Signature, or Transaction-blockHash whose byte
data has any length other than 32, 64, or 32 respectively fails with
`SchemaError` rather than producing output. -/
theorem C6_fixed_length_enforcement :
    (∀ kt d, kt < 256 → d.length ≠ 32 →
       encodeB PublicKeyS (.record [.int kt, .bytes d]) = .error .schemaError) ∧
    (∀ kt d, kt < 256 → d.length ≠ 64 →
       encodeB SignatureS (.record [.int kt, .bytes d]) = .error .schemaError) ∧
    (∀ s kt pkd nonce r bh acts, kt < 256 → pkd.length = 32 → nonce < 256 ^ 8 →
       bh.length ≠ 32 →
       encodeB TransactionS (.record [.str s, .record [.int kt, .bytes pkd], .int nonce,
         .str r, .bytes bh, .arr acts]) = .error .schemaError) := by
  refine ⟨?_, ?_, ?_⟩
  · intro kt d hkt hlen
    exact encode_keyed_bytes_badLen 30 32 kt d hkt hlen
  · intro kt d hkt hlen
    exact encode_keyed_bytes_badLen 30 64 kt d hkt hlen
  · intro s kt pkd nonce r bh acts hkt hpkd hnonce hbh
    exact encode_tx_badBlockHash 29 s kt pkd nonce r bh acts hkt hpkd hnonce hbh

/-- C6 witness: empty data fails for PublicKey and Signature, and an empty
blockHash fails for Transaction. -/
theorem C6_witness :
    encodeB PublicKeyS (.record [.int 0, .bytes []]) = .error .schemaError ∧
    encodeB SignatureS (.record [.int 0, .bytes []]) = .error .schemaError ∧
    encodeB TransactionS (.record [.str [], .record [.int 0, .bytes (List.replicate 32 7)],
      .int 1, .str [], .bytes [], .arr []]) = .error .schemaError :=
  ⟨C6_fixed_length_enforcement.1 0 [] (by decide) (by decide),
   C6_fixed_length_enforcement.2.1 0 [] (by decide) (by decide),
   C6_fixed_length_enforcement.2.2 [] 0 (List.replicate 32 7) 1 [] [] []
     (by decide) (by simp) (by norm_num) (by decide)⟩

/-- C7: encoding an Action or AccessKeyPermission union value fails with
`VariantError` when zero or more than one variant slot is populated, and
decoding fails with `SchemaError` when the discriminant byte is at least the
union's declared variant count (8 for Action, 2 for AccessKeyPermission). -/
theorem C7_union_exclusivity :
    (∀ slots, slots.length = 8 → countSome slots ≠ 1 →
       encodeB ActionS (.union slots) = .error .variantError) ∧
    (∀ slots, slots.length = 2 → countSome slots ≠ 1 →
       encodeB AccessKeyPermissionS (.union slots) = .error .variantError) ∧
    (∀ i rest, 8 ≤ i → decodeB ActionS (i :: rest) = .error .schemaError) ∧
    (∀ i rest, 2 ≤ i → decodeB AccessKeyPermissionS (i :: rest) = .error .schemaError) := by
  refine ⟨?_, ?_, ?_, ?_⟩
  · intro slots _ h
    exact encode_union_variantError 31 ActionVariants slots h
  · intro slots _ h
    exact encode_union_variantError 31 AccessKeyPermissionVariants slots h
  · intro i rest h
    exact decode_union_badTag 31 ActionVariants i rest (by simpa [ActionVariants] using h)
  · intro i rest h
    exact decode_union_badTag 31 AccessKeyPermissionVariants i rest
      (by simpa [AccessKeyPermissionVariants] using h)

/-- C7 witness: an all-empty Action value and a doubly-populated
AccessKeyPermission value fail to encode; out-of-range discriminants fail to
decode. -/
theorem C7_witness :
    encodeB ActionS (.union [none, none, none, none, none, none, none, none]) =
      .error .variantError ∧
    encodeB AccessKeyPermissionS (.union [some (.record []), some (.record [])]) =
      .error .variantError ∧
    decodeB ActionS [8] = .error .schemaError ∧
    decodeB AccessKeyPermissionS [2] = .error .schemaError :=
  ⟨C7_union_exclusivity.1 [none, none, none, none, none, none, none, none] rfl (by decide),
   C7_union_exclusivity.2.1 [some (.record []), some (.record [])] rfl (by decide),
   C7_union_exclusivity.2.2.1 8 [] (by decide),
   C7_union_exclusivity.2.2.2 2 [] (by decide)⟩

/-- C8: a successful `signTransaction` run returns, as first component, the
32-byte digest of the canonical encoding of the assembled Transaction and,
as second component, the SignedTransaction packaging that same Transaction
with the signer-produced signature under the retrieved key's keyType. -/
theorem C8_hash_and_package :
    ∀ hashFn signer receiverId nonce actions blockHash accountId networkId pk msg sig,
      signer.getPublicKey accountId networkId = .ok pk →
      encodeB TransactionS (createTransaction accountId pk receiverId nonce actions blockHash) =
        .ok msg →
      signer.signMessage msg accountId networkId = .ok sig →
      (∀ m, (hashFn m).length = 32) →
      (signTransaction hashFn signer receiverId nonce actions blockHash accountId networkId).2 =
        .ok (hashFn msg,
          .record [createTransaction accountId pk receiverId nonce actions blockHash,
                   .record [pkKeyType pk, .bytes sig]]) ∧
      (hashFn msg).length = 32 := by
  intro hashFn signer receiverId nonce actions blockHash accountId networkId pk msg sig
    hpk henc hsig h32
  exact ⟨by simp [signTransaction, hpk, henc, hsig], h32 msg⟩

/-- C8 witness: the mock run returns the digest of the concrete transaction
encoding paired with the packaged SignedTransaction. -/
theorem C8_witness :
    (signTransaction mockHash mockSigner mockReceiver 1 [] mockBlockHash
        (some mockAccount) none).2 =
      .ok (mockHash mockMessage,
        .record [createTransaction (some mockAccount) mockPk mockReceiver 1 [] mockBlockHash,
                 .record [pkKeyType mockPk, .bytes (List.replicate 64 9)]]) ∧
    (mockHash mockMessage).length = 32 :=
  C8_hash_and_package mockHash mockSigner mockReceiver 1 [] mockBlockHash
    (some mockAccount) none mockPk mockMessage (List.replicate 64 9)
    rfl (by rfl) rfl (fun m => by simp [mockHash])

/-- C9: both access-key builders set the nonce to 0: `fullAccessKey()`
returns an AccessKey with nonce 0 and the fullAccess variant populated, and
`functionCallAccessKey(receiverId, methodNames, allowance)` returns an
AccessKey with nonce 0 and the functionCall variant populated with exactly
the given receiverId, methodNames and (possibly absent) allowance. -/
theorem C9_access_key_builders :
    fullAccessKey 0 = .ok (.record [.int 0, .union [none, some (.record [])]]) ∧
    ∀ argCount receiverId methodNames allowance,
      functionCallAccessKey argCount (some receiverId) (some methodNames) allowance =
        .ok (.record [.int 0,
          .union [some (.record [.opt (allowance.map .int), .str receiverId,
                                 .arr (methodNames.map .str)]), none]]) :=
  ⟨rfl, fun _ _ _ _ => rfl⟩

/-- C10: invoked without an `accountId`, `signTransaction` does not fail
before delegating to the Signer: its very first protocol event is the
key-retrieval delegation carrying the absent `accountId` verbatim, and the
Transaction assembled from the absent `accountId` carries an unset
`signerId` — assembly raises no error. -/
theorem C10_missing_accountId_passthrough :
    ∀ hashFn signer receiverId nonce actions blockHash networkId pk,
      (signTransaction hashFn signer receiverId nonce actions blockHash none networkId).1.head? =
        some (.getPublicKey none networkId) ∧
      createTransaction none pk receiverId nonce actions blockHash =
        .record [.undefined, pk, .int nonce, .str receiverId, .bytes blockHash, .arr actions] := by
  intro hashFn signer receiverId nonce actions blockHash networkId pk
  refine ⟨?_, rfl⟩
  cases hpk : signer.getPublicKey none networkId with
  | error e => simp [signTransaction, hpk]
  | ok pk0 =>
    cases henc : encodeB TransactionS
        (createTransaction none pk0 receiverId nonce actions blockHash) with
    | error e => simp [signTransaction, hpk, henc]
    | ok msg =>
      cases hsig : signer.signMessage msg none networkId with
      | error e => simp [signTransaction, hpk, henc, hsig]
      | ok sig => simp [signTransaction, hpk, henc, hsig]

end NearTx
